import Mathlib

/-!
Shallow embedding of `opendm/dem/commands.py` (OpenDroneMap DEM commands).

The file models the four functions of the source module:

* `classify`        — ground classification wrapper (lines 12-25);
* `create_dems`     — multi-radius scheduler + regrouping + optional gap fill
                      (lines 28-59);
* `create_dem`      — single-radius run: output naming and the post-pipeline
                      existence check (lines 62-103);
* `gap_fill`        — merge of sorted rasters, nearest-neighbour fill via a
                      Euclidean distance transform, 5x5 median filter, write
                      (lines 106-143).

Modelling conventions:

* Pixel values are `Int` (the algorithms only use equality with the nodata
  sentinel and ordering for the median filter, so the embedding is faithful
  for any totally ordered pixel type).
* A raster (`gippy.GeoImage`, single band) is a `GeoImage h w`: a nodata
  sentinel plus a pixel array `Fin h → Fin w → Int`.  All rasters of one
  gap-fill call share a shape, as the source assumes.
* The filesystem seen by `gap_fill` is a total map `String → GeoImage h w`;
  writing is `writeImg`.  `gap_fill` also returns the list of paths it read,
  so that "no raster reads or writes" is observable.
* External collaborators (the pdal pipeline of `create_dem`, `os.path.abspath`)
  are parameters: `ex : String → Bool` is `os.path.exists` after the pipeline
  ran, `ap : String → String` is `os.path.abspath`.
* The `loky` executor of `create_dems` is modelled operationally: jobs finish
  in an arbitrary completion order `sched` (a permutation of the job indices)
  and each completion stores its result in the slot of its own index
  (`execMap`), which is how an order-preserving list of futures behaves;
  `e.map` then reads the slots in index order.
* `scipy.ndimage.distance_transform_edt(..., return_indices=True)` maps every
  cell to a nearest (squared-Euclidean) cell outside the mask; ties are broken
  here by row-major order (`List.argmin`).  The claims proved about the fill
  are tie-break independent.
* `scipy.signal.medfilt(arr, 5)` is the 5x5 zero-padded median filter
  `medfilt5`.
-/

/-- Python exceptions raised by `commands.py`, named by the role the spec
assigns them.  `indexError`/`keyError` model Python `IndexError`/`KeyError`
from `fouts[0]` and `f[product]`; `executorIncomplete` is an artefact of the
executor model (a slot never filled; impossible for a real completion order). -/
inductive DemError
  | emptyInput
  | rasterization
  | indexError
  | keyError
  | executorIncomplete
deriving DecidableEq, Repr

/-- Errors observable from `classify`: either a Python `NameError` escaping
from a handler that mentions an unbound name, or an `Exception` with a
message. -/
inductive PyErr
  | nameError (missingName : String)
  | exceptionMsg (msg : String)
deriving DecidableEq, Repr

/-- One single-band raster: nodata sentinel plus pixel array. -/
structure GeoImage (h w : Nat) where
  nodata : Int
  px : Fin h → Fin w → Int

instance {h w : Nat} : Inhabited (GeoImage h w) := ⟨⟨0, fun _ _ => 0⟩⟩

/-- Model of `os.path.join` for the paths the module builds (second component
relative, first without a trailing separator). -/
def pjoin (a b : String) : String := if a = "" then b else a ++ "/" ++ b

/-- Store raster `img` at path `p` (what `imgout[0].write(arr)` leaves on
disk). -/
def writeImg {h w : Nat} (fs : String → GeoImage h w) (p : String)
    (img : GeoImage h w) : String → GeoImage h w :=
  fun q => if q = p then img else fs q

/-- Replay a log of writes (path, image) left-to-right. -/
def applyWrites {h w : Nat} (fs : String → GeoImage h w)
    (log : List (List String × String × GeoImage h w)) : String → GeoImage h w :=
  log.foldl (fun f e => writeImg f e.2.1 e.2.2) fs

/-! ## gap_fill (source lines 106-143) -/

/-- Code-point lexicographic comparison of character lists, exactly how
Python compares two `str` values: walk both strings, at the first differing
position compare the code points, and a proper prefix sorts first. -/
def charsLe : List Char → List Char → Bool
  | [], _ => true
  | _ :: _, [] => false
  | a :: as, b :: bs => if a = b then charsLe as bs else decide (a < b)

/-- The path order used by `sorted(filenames)`. -/
def strLe (a b : String) : Prop := charsLe a.data b.data = true

instance strLe.instDecidableRel : DecidableRel strLe := fun a b =>
  inferInstanceAs (Decidable (charsLe a.data b.data = true))

instance strLe.instIsTotal : IsTotal String strLe := by
  have key : ∀ as bs : List Char,
      charsLe as bs = true ∨ charsLe bs as = true := by
    intro as
    induction as with
    | nil => exact fun bs => Or.inl rfl
    | cons x xs ih =>
      intro bs
      cases bs with
      | nil => exact Or.inr rfl
      | cons y ys =>
        by_cases hxy : x = y
        · subst hxy
          rcases ih ys with hc | hc
          · left; simpa [charsLe] using hc
          · right; simpa [charsLe] using hc
        · rcases lt_or_gt_of_ne hxy with hlt | hlt
          · left; simp [charsLe, hxy, hlt]
          · right
            have hyx : ¬ y = x := fun e => hxy e.symm
            simp [charsLe, hyx, hlt]
  exact ⟨fun a b => key a.data b.data⟩

instance strLe.instIsTrans : IsTrans String strLe := by
  have key : ∀ as bs cs : List Char, charsLe as bs = true →
      charsLe bs cs = true → charsLe as cs = true := by
    intro as
    induction as with
    | nil => intro bs cs h1 h2; rfl
    | cons x xs ih =>
      intro bs cs h1 h2
      cases bs with
      | nil => simp [charsLe] at h1
      | cons y ys =>
        cases cs with
        | nil => simp [charsLe] at h2
        | cons z zs =>
          by_cases hxy : x = y <;> by_cases hyz : y = z
          · subst hxy; subst hyz
            rw [charsLe, if_pos rfl] at h1 h2 ⊢
            exact ih ys zs h1 h2
          · subst hxy
            rw [charsLe, if_neg hyz] at h2 ⊢
            exact h2
          · subst hyz
            rw [charsLe, if_neg hxy] at h1 ⊢
            exact h1
          · rw [charsLe, if_neg hxy] at h1
            rw [charsLe, if_neg hyz] at h2
            have hxz : x < z :=
              lt_trans (of_decide_eq_true h1) (of_decide_eq_true h2)
            rw [charsLe, if_neg (ne_of_lt hxz), decide_eq_true_eq]
            exact hxz
  exact ⟨fun a b c h1 h2 => key a.data b.data c.data h1 h2⟩

instance strLe.instIsAntisymm : IsAntisymm String strLe := by
  have key : ∀ as bs : List Char, charsLe as bs = true →
      charsLe bs as = true → as = bs := by
    intro as
    induction as with
    | nil =>
      intro bs h1 h2
      cases bs with
      | nil => rfl
      | cons y ys => simp [charsLe] at h2
    | cons x xs ih =>
      intro bs h1 h2
      cases bs with
      | nil => simp [charsLe] at h1
      | cons y ys =>
        by_cases hxy : x = y
        · subst hxy
          rw [charsLe, if_pos rfl] at h1 h2
          rw [ih ys h1 h2]
        · rw [charsLe, if_neg hxy] at h1
          have hyx : ¬ y = x := fun e => hxy e.symm
          rw [charsLe, if_neg hyx] at h2
          exact absurd (of_decide_eq_true h2)
            (lt_asymm (of_decide_eq_true h1))
  exact ⟨fun a b h1 h2 => by
    have hd := key a.data b.data h1 h2
    cases a
    cases b
    exact congrArg String.mk hd⟩

/-- Line 114: `filenames = sorted(filenames)` — lexicographic sort of paths. -/
def sortedNames (filenames : List String) : List String :=
  List.insertionSort strLe filenames

/-- Lines 121-122: `locs = numpy.where(arr == nodata); arr[locs] = img[locs]`
— overwrite exactly the accumulator cells still equal to nodata. -/
def mergeStep {h w : Nat} (nodata : Int) (arr img : Fin h → Fin w → Int) :
    Fin h → Fin w → Int :=
  fun i j => if arr i j = nodata then img i j else arr i j

/-- Line 120: the loop `for i in range(1, len(imgs))` folding `mergeStep`
over the remaining rasters. -/
def mergeList {h w : Nat} (nodata : Int) (arr : Fin h → Fin w → Int)
    (imgs : List (Fin h → Fin w → Int)) : Fin h → Fin w → Int :=
  imgs.foldl (mergeStep nodata) arr

/-- All cells of the grid in row-major order. -/
def allCells (h w : Nat) : List (Fin h × Fin w) :=
  (List.finRange h).flatMap fun i => (List.finRange w).map fun j => (i, j)

/-- Cells whose value differs from the nodata sentinel (the zero cells of the
mask `arr == nodata`). -/
def validCells {h w : Nat} (nodata : Int) (arr : Fin h → Fin w → Int) :
    List (Fin h × Fin w) :=
  (allCells h w).filter fun p => decide (arr p.1 p.2 ≠ nodata)

/-- Squared Euclidean distance between two cells. -/
def dist2 {h w : Nat} (p q : Fin h × Fin w) : Int :=
  ((p.1 : Int) - (q.1 : Int)) ^ 2 + ((p.2 : Int) - (q.2 : Int)) ^ 2

/-- Lines 125-128: nearest-neighbour interpolation at nodata cells.  Each
cell equal to nodata receives the value of a nearest valid cell (the indices
produced by `distance_transform_edt` on the mask `arr == nodata`); valid
cells keep their value.  Ties broken by row-major order; with no valid cell
at all the array is left unchanged (the claims never touch that case). -/
def edtFill {h w : Nat} (nodata : Int) (arr : Fin h → Fin w → Int) :
    Fin h → Fin w → Int :=
  fun i j =>
    if arr i j = nodata then
      match (validCells nodata arr).argmin (dist2 (i, j)) with
      | some q => arr q.1 q.2
      | none => arr i j
    else arr i j

/-- Pixel at integer coordinates, zero outside the grid (`medfilt`
zero-pads the boundary). -/
def cellZ {h w : Nat} (arr : Fin h → Fin w → Int) (i j : Int) : Int :=
  if hij : 0 ≤ i ∧ i < (h : Int) ∧ 0 ≤ j ∧ j < (w : Int) then
    arr ⟨i.toNat, by omega⟩ ⟨j.toNat, by omega⟩
  else 0

/-- The 25 values of the 5x5 window centred at a cell, zero-padded. -/
def window5 {h w : Nat} (arr : Fin h → Fin w → Int) (i : Fin h) (j : Fin w) :
    List Int :=
  (List.range 5).flatMap fun di =>
    (List.range 5).map fun dj =>
      cellZ arr ((i : Int) + (di : Int) - 2) ((j : Int) + (dj : Int) - 2)

/-- Line 132: `scipy.signal.medfilt(arr, 5)` — per cell, the median (13th of
25 sorted values) of the zero-padded 5x5 window. -/
def medfilt5 {h w : Nat} (arr : Fin h → Fin w → Int) : Fin h → Fin w → Int :=
  fun i j =>
    (List.insertionSort (fun a b : Int => a ≤ b) (window5 arr i j)).getD 12 0

/-- Line 117: nodata sentinel of the first raster in sorted order. -/
def nodataOf {h w : Nat} (fs : String → GeoImage h w)
    (filenames : List String) : Int :=
  (((sortedNames filenames).map fs).headI).nodata

/-- Lines 118-122: the accumulator after the successive-overwrite merge of
all sorted rasters (pre nearest-neighbour fill, pre median filter). -/
def mergedArr {h w : Nat} (fs : String → GeoImage h w)
    (filenames : List String) : Fin h → Fin w → Int :=
  let imgs := (sortedNames filenames).map fs
  mergeList imgs.headI.nodata imgs.headI.px (imgs.tail.map fun g => g.px)

/-- Lines 125-128: the merged accumulator after nearest-neighbour filling
(pre median filter). -/
def filledArr {h w : Nat} (fs : String → GeoImage h w)
    (filenames : List String) : Fin h → Fin w → Int :=
  edtFill (nodataOf fs filenames) (mergedArr fs filenames)

/-- Lines 131-132: the written band — median filter of the filled array. -/
def finalArr {h w : Nat} (fs : String → GeoImage h w)
    (filenames : List String) : Fin h → Fin w → Int :=
  medfilt5 (filledArr fs filenames)

/-- Outcome of a `gap_fill` call: returned path (or raised error), the
filesystem afterwards, and the raster paths read. -/
structure GFOutcome (h w : Nat) where
  result : Except DemError String
  fs : String → GeoImage h w
  reads : List String

/-- Lines 106-143.  Raise on empty input before any I/O (lines 110-111);
otherwise sort, merge, fill, filter, and write the result to `fout` with the
nodata sentinel of the first sorted raster (lines 135-137), returning
`fout` (line 138). -/
def gap_fill {h w : Nat} (fs : String → GeoImage h w)
    (filenames : List String) (fout : String) : GFOutcome h w :=
  if filenames.isEmpty then
    { result := .error .emptyInput, fs := fs, reads := [] }
  else
    let outImg : GeoImage h w :=
      { nodata := nodataOf fs filenames, px := finalArr fs filenames }
    { result := .ok fout
      fs := writeImg fs fout outImg
      reads := sortedNames filenames }

/-! ## classify (source lines 12-25) -/

/-- Lines 12-25.  `runGround` models the outcome of the `pdal` ground run
(`run_pdaltranslate_smrf` / `run_pdalground`), the external collaborator.
On success the reclassified file path is returned.  On failure the bare
`except:` handler (lines 21-22) builds the message
`'Error creating classified file %s' % fout` — but no variable `fout` is in
scope in `classify`, so evaluating the format expression raises
`NameError: name 'fout' is not defined` instead: the underlying cause is
discarded and no file name is reported. -/
def classify (runGround : Except String Unit) (lasFile : String) :
    Except PyErr String :=
  match runGround with
  | .ok _ => .ok lasFile
  | .error _ => .error (.nameError "fout")

/-! ## create_dem (source lines 62-103)

The pipeline construction and `pdal.run_pipeline` call (lines 75-92) are the
external rasterization collaborator; what `create_dem` itself contributes is
the deterministic output naming (lines 68-71) and the positive existence
check (lines 94-100).  `ex` is `os.path.exists` as observed after the
pipeline ran; `ap` is `os.path.abspath`. -/

/-- Line 68 and 71: `bname = join(abspath(outdir), demtype + '_r' + radius
+ suffix)`; the file for product `o` is `bname + '.' + o + '.tif'`. -/
def demPath (ap : String → String) (outdir demtype radius suffix product : String) :
    String :=
  pjoin (ap outdir) (demtype ++ "_r" ++ radius ++ suffix) ++ "." ++ product ++ ".tif"

/-- Lines 62-103: build the per-product output map, then verify that every
product file exists (lines 94-100: a flag cleared by any missing file),
raising the rasterization error otherwise. -/
def create_dem (ex : String → Bool) (ap : String → String)
    (filenames : List String) (demtype radius : String)
    (products : List String) (outdir suffix : String) :
    Except DemError (List (String × String)) :=
  let fouts := products.map fun o => (o, demPath ap outdir demtype radius suffix o)
  let allExist := fouts.foldl (fun acc f => if ex f.2 then acc else false) true
  if allExist then .ok fouts else .error .rasterization

/-! ## The executor model (source line 37-38)

`get_reusable_executor(...).map(create_dem_for_radius, radius)` submits one
job per radius and returns the results in submission order, whatever order
the jobs complete in.  Operationally: there is one result slot per job
index; jobs complete in some order `sched` (a permutation of the indices),
each completion storing its result in its own slot; `list(e.map(...))`
then reads the slots in index order. -/

/-- Fill result slots in completion order: completing job `i` stores
`g i` in slot `i`. -/
def fillSlots {α : Type} (g : Nat → α) (sched : List Nat)
    (init : List (Option α)) : List (Option α) :=
  sched.foldl (fun acc i => acc.set i (some (g i))) init

/-- The slot array after all `n` jobs completed in order `sched`. -/
def execMap {α : Type} (g : Nat → α) (n : Nat) (sched : List Nat) :
    List (Option α) :=
  fillSlots g sched (List.replicate n none)

/-- Read the slots in index order, propagating the first raised job error
(`list(e.map ...)`).  An unfilled slot cannot occur for a real completion
order. -/
def collectSlots {E α : Type} (slots : List (Option (Except E α)))
    (missing : E) : Except E (List α) :=
  slots.mapM fun s =>
    match s with
    | some e => e
    | none => .error missing

/-- Lookup `f[product]` on an association list: Python raises `KeyError` when the
key is absent. -/
def dictGet (d : List (String × String)) (k : String) : Except DemError String :=
  match d.lookup k with
  | some v => .ok v
  | none => .error .keyError

/-! ## create_dems (source lines 28-59) -/

/-- Lines 37-43: run one job per radius through the executor, collect the
per-radius result dicts in radius order, then transpose them into one path
series per product: `for product in fouts[0].keys(): fnames[product] =
[f[product] for f in fouts]`.  `fouts[0]` on an empty job list is a Python
`IndexError`. -/
def seriesMap (job : String → Except DemError (List (String × String)))
    (radius : List String) (sched : List Nat) :
    Except DemError (List (String × List String)) :=
  Except.bind
    (collectSlots (execMap (fun k => job (radius.getD k "")) radius.length sched)
      DemError.executorIncomplete)
    fun fouts =>
      match fouts with
      | [] => .error .indexError
      | f0 :: _ =>
        (f0.map Prod.fst).mapM fun p =>
          Except.bind (fouts.mapM fun f => dictGet f p) fun series =>
            .ok (p, series)

/-- Running state of the gap-fill loop of `create_dems`: the product-to-path
pairs recorded so far, the filesystem, and the log of `gap_fill` invocations
(input series, output path, written image). -/
abbrev DemState (h w : Nat) :=
  List (String × String) × (String → GeoImage h w)
    × List (List String × String × GeoImage h w)

/-- One iteration of the loop at lines 49-53: compute the shared output name
`join(outdir, demtype + suffix + '.tif')`, gap-fill the product's series
into it (propagating a raised error), and record the product's path. -/
def gfStep {h w : Nat} (outdir demtype suffix : String) (acc : DemState h w)
    (pr : String × List String) : Except DemError (DemState h w) :=
  let fout := pjoin outdir (demtype ++ suffix ++ ".tif")
  let g := gap_fill acc.2.1 pr.2 fout
  Except.bind g.result fun fpath =>
    .ok (acc.1 ++ [(pr.1, fpath)], g.fs, acc.2.2 ++ [(pr.2, fout, g.fs fout)])

/-- Lines 28-59.  Build the per-product series (`seriesMap`), then either
gap-fill every product into the shared output
`join(outdir, demtype + suffix + '.tif')` (lines 48-53) — threading the
filesystem through the per-product `gap_fill` calls and logging each
invocation as (input series, output path, written image) — or, with
`gapfill` false, return the first-radius path of every series
(lines 54-57). -/
def create_dems {h w : Nat} (ex : String → Bool) (ap : String → String)
    (fs0 : String → GeoImage h w) (filenames : List String) (demtype : String)
    (radius : List String) (gapfill : Bool) (outdir suffix : String)
    (products : List String) (sched : List Nat) :
    Except DemError (DemState h w) :=
  Except.bind
    (seriesMap (fun r => create_dem ex ap filenames demtype r products outdir suffix)
      radius sched)
    fun fnames =>
      if gapfill then
        fnames.foldlM (gfStep outdir demtype suffix) ([], fs0, [])
      else
        Except.bind
          (fnames.mapM fun pr =>
            match pr.2 with
            | [] => .error DemError.indexError
            | p0 :: _ => .ok (pr.1, p0))
          fun pairs => .ok (pairs, fs0, [])

/-! ## Concrete rasters and filesystems for the example checks -/

/-- Example 5x5 raster with sentinel -1, nodata only at cell (2,2). -/
def exR1 : GeoImage 5 5 :=
  ⟨-1, fun i j => if i = 2 ∧ j = 2 then -1 else (i : Int) * 5 + (j : Int)⟩

/-- Example 5x5 raster with sentinel -1 and valid values everywhere. -/
def exR2 : GeoImage 5 5 := ⟨-1, fun i j => 100 + (i : Int) * 5 + (j : Int)⟩

/-- Filesystem mapping r1.tif to `exR1` and everything else to `exR2`. -/
def exFs2 : String → GeoImage 5 5 := fun p => if p = "r1.tif" then exR1 else exR2

/-- Example 3x3 raster with sentinel 0 and a single valid pixel 7 at (1,1). -/
def exSolo : GeoImage 3 3 := ⟨0, fun i j => if i = 1 ∧ j = 1 then 7 else 0⟩

/-- Filesystem holding `exSolo` at every path. -/
def exFs3 : String → GeoImage 3 3 := fun _ => exSolo

/-- Example 1x1 raster with nodata sentinel 3. -/
def exNdA : GeoImage 1 1 := ⟨3, fun _ _ => 9⟩

/-- Example 1x1 raster with nodata sentinel 5. -/
def exNdB : GeoImage 1 1 := ⟨5, fun _ _ => 7⟩

/-- Filesystem mapping a.tif to `exNdA` and everything else to `exNdB`. -/
def exFs9 : String → GeoImage 1 1 := fun p => if p = "a.tif" then exNdA else exNdB

/-! ## Helper lemmas: executor model -/

theorem fillSlots_length {α : Type} (g : Nat → α) (sched : List Nat)
    (init : List (Option α)) : (fillSlots g sched init).length = init.length := by
  induction sched generalizing init with
  | nil => rfl
  | cons j rest ih => simpa [fillSlots] using ih (init.set j (some (g j)))

theorem fillSlots_getElem? {α : Type} (g : Nat → α) (sched : List Nat)
    (init : List (Option α)) (i : Nat) :
    (fillSlots g sched init)[i]? =
      if i ∈ sched ∧ i < init.length then some (some (g i)) else init[i]? := by
  induction sched generalizing init with
  | nil => simp [fillSlots]
  | cons j rest ih =>
    have hset : (fillSlots g (j :: rest) init) =
        fillSlots g rest (init.set j (some (g j))) := rfl
    rw [hset, ih]
    by_cases hr : i ∈ rest ∧ i < init.length
    · simp [hr.1, hr.2, List.mem_cons]
    · by_cases hij : i = j
      · subst hij
        by_cases hlen : i < init.length
        · simp [hlen, List.getElem?_set_self', List.getElem?_eq_getElem hlen,
            List.mem_cons]
        · have h1 : init[i]? = none := List.getElem?_eq_none (Nat.le_of_not_lt hlen)
          have h2 : (init.set i (some (g i)))[i]? = none :=
            List.getElem?_eq_none (by simpa using Nat.le_of_not_lt hlen)
          simp [hr, hlen, h1, h2, List.mem_cons]
      · have hnc : ¬ (i ∈ j :: rest ∧ i < init.length) := by
          intro hc
          rcases hc with ⟨hm, hl⟩
          rcases List.mem_cons.mp hm with h | h
          · exact hij h
          · exact hr ⟨h, hl⟩
        have hne : (init.set j (some (g j)))[i]? = init[i]? :=
          List.getElem?_set_ne (fun he => hij he.symm)
        rw [List.length_set, if_neg hr, if_neg hnc, hne]

/-- With a real completion order (a permutation of the job indices), the
slot array read back in index order holds every job's own result: the
executor's order-preservation. -/
theorem execMap_perm {α : Type} (g : Nat → α) (n : Nat) (sched : List Nat)
    (hs : sched.Perm (List.range n)) :
    execMap g n sched = (List.range n).map (fun k => some (g k)) := by
  apply List.ext_getElem?
  intro i
  have hlen : (execMap g n sched).length = n := by
    simp [execMap, fillSlots_length]
  have hmem : i ∈ sched ↔ i < n := by
    rw [hs.mem_iff, List.mem_range]
  rw [execMap, fillSlots_getElem?]
  by_cases hi : i < n
  · simp [hmem, hi]
  · have h1 : (List.replicate n (none : Option α))[i]? = none :=
      List.getElem?_eq_none (by simpa using Nat.le_of_not_lt hi)
    have h2 : ((List.range n).map (fun k => some (g k)))[i]? = none :=
      List.getElem?_eq_none (by simpa using Nat.le_of_not_lt hi)
    simp only [List.length_replicate, hmem, hi, and_false, if_false, h1, h2]

/-- Monadic map in `Except` succeeds elementwise when every element does. -/
theorem mapM_ok {E α β : Type} (l : List α) (f : α → Except E β) (g : α → β)
    (hf : ∀ x ∈ l, f x = .ok (g x)) : l.mapM f = .ok (l.map g) := by
  induction l with
  | nil => rfl
  | cons a l ih =>
    have ha := hf a (List.mem_cons_self a l)
    have hl := ih (fun x hx => hf x (List.mem_cons_of_mem a hx))
    rw [List.mapM_cons, ha, hl]
    rfl

/-- Collecting fully filled slots of elementwise-successful jobs. -/
theorem collectSlots_map_some {E α β : Type} (l : List β) (f : β → Except E α)
    (res : β → α) (missing : E) (hf : ∀ x ∈ l, f x = .ok (res x)) :
    collectSlots (l.map fun x => some (f x)) missing = .ok (l.map res) := by
  induction l with
  | nil => rfl
  | cons a l ih =>
    have ha := hf a (List.mem_cons_self a l)
    have hl := ih (fun x hx => hf x (List.mem_cons_of_mem a hx))
    rw [collectSlots] at hl ⊢
    rw [List.map_cons, List.mapM_cons, ha, hl]
    rfl

/-- Monadic map over a mapped list, elementwise successful. -/
theorem mapM_map_ok {E α β γ : Type} (l : List α) (m : α → β)
    (f : β → Except E γ) (g : α → γ)
    (hf : ∀ x ∈ l, f (m x) = .ok (g x)) : (l.map m).mapM f = .ok (l.map g) := by
  induction l with
  | nil => rfl
  | cons a l ih =>
    have ha := hf a (List.mem_cons_self a l)
    have hl := ih (fun x hx => hf x (List.mem_cons_of_mem a hx))
    rw [List.map_cons, List.mapM_cons, ha, hl]
    rfl

/-- Association-list lookup along a keyed map of distinct construction. -/
theorem lookup_map_pair {β : Type} (l : List String) (f : String → β) (p : String)
    (hp : p ∈ l) : (l.map fun o => (o, f o)).lookup p = some (f p) := by
  induction l with
  | nil => cases hp
  | cons a l ih =>
    rw [List.map_cons]
    by_cases hpa : p = a
    · subst hpa
      simp [List.lookup]
    · have hmem : p ∈ l := by
        rcases List.mem_cons.mp hp with h | h
        · exact absurd h hpa
        · exact h
      have hbeq : (p == a) = false := by simpa using hpa
      simp [List.lookup, hbeq, ih hmem]

/-- Lookup `f[product]` succeeds on the dict `create_dem` returns, yielding the
product's path. -/
theorem dictGet_map_pair (l : List String) (f : String → String) (p : String)
    (hp : p ∈ l) : dictGet (l.map fun o => (o, f o)) p = .ok (f p) := by
  rw [dictGet, lookup_map_pair l f p hp]

/-- The existence flag of `create_dem` (lines 95-98) is the conjunction of
the per-file existence checks. -/
theorem existsFold_eq_all (ex : String → Bool) (l : List (String × String))
    (b : Bool) :
    l.foldl (fun acc f => if ex f.2 then acc else false) b
      = (b && l.all fun f => ex f.2) := by
  induction l generalizing b with
  | nil => simp
  | cons a l ih =>
    rw [List.foldl_cons, ih]
    by_cases h : ex a.2 <;> simp [h]

/-- When every product file exists, `create_dem` returns the full
product-to-path map. -/
theorem create_dem_ok (ex : String → Bool) (ap : String → String)
    (filenames : List String) (demtype radius : String)
    (products : List String) (outdir suffix : String)
    (hex : ∀ o ∈ products, ex (demPath ap outdir demtype radius suffix o) = true) :
    create_dem ex ap filenames demtype radius products outdir suffix
      = .ok (products.map fun o => (o, demPath ap outdir demtype radius suffix o)) := by
  rw [create_dem]
  have hall : (products.map fun o =>
      (o, demPath ap outdir demtype radius suffix o)).all (fun f => ex f.2) = true := by
    rw [List.all_eq_true]
    intro f hf
    rcases List.mem_map.mp hf with ⟨o, ho, rfl⟩
    exact hex o ho
  simp only [existsFold_eq_all, hall, Bool.true_and, if_true]

/-- Reading list elements back through `getD` over their indices. -/
theorem map_range_getD {α β : Type} (l : List α) (d : α) (F : α → β) :
    (List.range l.length).map (fun k => F (l.getD k d)) = l.map F := by
  apply List.ext_getElem
  · simp
  · intro i h1 h2
    simp only [List.getElem_map, List.getElem_range]
    rw [List.getD_eq_getElem]

/-- Evaluation of the regrouping step of `create_dems` (lines 37-43): when
every per-radius job returns the same key set `keys` with values `val r o`,
the assembled map pairs every key with the series of its per-radius values,
in caller radius order, for every completion order of the jobs. -/
theorem seriesMap_eval (job : String → Except DemError (List (String × String)))
    (val : String → String → String) (keys : List String)
    (radius : List String) (sched : List Nat) (r0 : String) (rs : List String)
    (hr : radius = r0 :: rs)
    (hs : sched.Perm (List.range radius.length))
    (hjob : ∀ r ∈ radius, job r = .ok (keys.map fun o => (o, val r o))) :
    seriesMap job radius sched
      = .ok (keys.map fun p => (p, radius.map fun r => val r p)) := by
  have hg : ∀ k ∈ List.range radius.length,
      job (radius.getD k "") = .ok (keys.map fun o => (o, val (radius.getD k "") o)) := by
    intro k hk
    have hklt : k < radius.length := List.mem_range.mp hk
    exact hjob _ (by rw [List.getD_eq_getElem _ _ hklt]; exact List.getElem_mem hklt)
  have hexec : execMap (fun k => job (radius.getD k "")) radius.length sched
      = (List.range radius.length).map fun k => some (job (radius.getD k "")) :=
    execMap_perm _ _ _ hs
  have hcollect : collectSlots
      (execMap (fun k => job (radius.getD k "")) radius.length sched)
      DemError.executorIncomplete
      = .ok (radius.map fun r => keys.map fun o => (o, val r o)) := by
    rw [hexec, collectSlots_map_some _ _
      (fun k => keys.map fun o => (o, val (radius.getD k "") o)) _ hg]
    rw [map_range_getD radius "" (fun r => keys.map fun o => (o, val r o))]
  rw [seriesMap, hcollect]
  have hfouts : radius.map (fun r => keys.map fun o => (o, val r o))
      = (keys.map fun o => (o, val r0 o))
        :: rs.map (fun r => keys.map fun o => (o, val r o)) := by
    rw [hr, List.map_cons]
  rw [hfouts]
  show ((keys.map fun o => (o, val r0 o)).map Prod.fst).mapM _ = _
  have hkeys : (keys.map fun o => (o, val r0 o)).map Prod.fst = keys := by
    rw [List.map_map]
    exact List.map_id keys
  rw [hkeys, ← hfouts]
  apply mapM_ok
  intro p hp
  have hinner : (radius.map fun r => keys.map fun o => (o, val r o)).mapM
      (fun f => dictGet f p) = .ok (radius.map fun r => val r p) :=
    mapM_map_ok radius _ _ _ (fun r _ => dictGet_map_pair keys (val r) p hp)
  rw [hinner]
  rfl

/-! ## Helper lemmas: gap_fill -/

/-- Evaluation of `gap_fill` on a non-empty input list. -/
theorem gap_fill_ne_nil {h w : Nat} (fs : String → GeoImage h w)
    (filenames : List String) (fout : String) (hne : filenames ≠ []) :
    gap_fill fs filenames fout =
      { result := .ok fout
        fs := writeImg fs fout
          { nodata := nodataOf fs filenames, px := finalArr fs filenames }
        reads := sortedNames filenames } := by
  rw [gap_fill, if_neg]
  simpa [List.isEmpty_iff] using hne

theorem writeImg_self {h w : Nat} (fs : String → GeoImage h w) (p : String)
    (img : GeoImage h w) : writeImg fs p img p = img := by
  simp [writeImg]

/-- Lexicographic sorting depends only on the multiset of paths. -/
theorem sortedNames_perm (l1 l2 : List String) (hp : l1.Perm l2) :
    sortedNames l1 = sortedNames l2 :=
  List.eq_of_perm_of_sorted
    ((List.perm_insertionSort _ l1).trans
      (hp.trans (List.perm_insertionSort _ l2).symm))
    (List.sorted_insertionSort _ l1) (List.sorted_insertionSort _ l2)

/-- Every cell is listed. -/
theorem mem_allCells {h w : Nat} (p : Fin h × Fin w) : p ∈ allCells h w := by
  rcases p with ⟨i, j⟩
  rw [allCells, List.mem_flatMap]
  exact ⟨i, List.mem_finRange i, List.mem_map.mpr ⟨j, List.mem_finRange j, rfl⟩⟩

/-- Membership in the valid-cell list is exactly holding a non-nodata value. -/
theorem mem_validCells_iff {h w : Nat} (nodata : Int)
    (arr : Fin h → Fin w → Int) (p : Fin h × Fin w) :
    p ∈ validCells nodata arr ↔ arr p.1 p.2 ≠ nodata := by
  rw [validCells, List.mem_filter]
  simp [mem_allCells]

/-- After the distance-transform fill, no cell holds the nodata sentinel,
as soon as one valid cell exists. -/
theorem edtFill_ne_nodata {h w : Nat} (nodata : Int)
    (arr : Fin h → Fin w → Int) (p0 : Fin h × Fin w)
    (h0 : arr p0.1 p0.2 ≠ nodata) (i : Fin h) (j : Fin w) :
    edtFill nodata arr i j ≠ nodata := by
  rw [edtFill]
  by_cases hij : arr i j = nodata
  · rw [if_pos hij]
    have hmem : p0 ∈ validCells nodata arr :=
      (mem_validCells_iff nodata arr p0).mpr h0
    have hne : validCells nodata arr ≠ [] := List.ne_nil_of_mem hmem
    obtain ⟨q, hq⟩ : ∃ q, (validCells nodata arr).argmin (dist2 (i, j)) = some q := by
      cases hA : (validCells nodata arr).argmin (dist2 (i, j)) with
      | none => exact absurd (List.argmin_eq_none.mp hA) hne
      | some q => exact ⟨q, rfl⟩
    rw [hq]
    exact (mem_validCells_iff nodata arr q).mp (List.argmin_mem hq)
  · rw [if_neg hij]
    exact hij

/-- With exactly one valid cell, the distance-transform fill saturates the
whole grid with that cell's value. -/
theorem edtFill_unique {h w : Nat} (nodata : Int)
    (arr : Fin h → Fin w → Int) (q0 : Fin h × Fin w) (v : Int)
    (hv : v ≠ nodata) (hq0 : arr q0.1 q0.2 = v)
    (hother : ∀ p : Fin h × Fin w, p ≠ q0 → arr p.1 p.2 = nodata)
    (i : Fin h) (j : Fin w) : edtFill nodata arr i j = v := by
  rw [edtFill]
  by_cases hij : arr i j = nodata
  · rw [if_pos hij]
    have hmem : q0 ∈ validCells nodata arr :=
      (mem_validCells_iff nodata arr q0).mpr (by rw [hq0]; exact hv)
    obtain ⟨q, hq⟩ : ∃ q, (validCells nodata arr).argmin (dist2 (i, j)) = some q := by
      cases hA : (validCells nodata arr).argmin (dist2 (i, j)) with
      | none => exact absurd (List.argmin_eq_none.mp hA) (List.ne_nil_of_mem hmem)
      | some q => exact ⟨q, rfl⟩
    rw [hq]
    have hqv : arr q.1 q.2 ≠ nodata :=
      (mem_validCells_iff nodata arr q).mp (List.argmin_mem hq)
    have : q = q0 := by
      by_contra hne
      exact hqv (hother q hne)
    rw [this]
    exact hq0
  · rw [if_neg hij]
    have : (i, j) = q0 := by
      by_contra hne
      exact hij (hother (i, j) hne)
    have h1 : i = q0.1 := by rw [← this]
    have h2 : j = q0.2 := by rw [← this]
    rw [h1, h2, hq0]

/-! ## Helper lemmas: the gap-fill loop of create_dems -/

/-- Evaluation of one `gfStep` on a non-empty series. -/
theorem gfStep_eval {h w : Nat} (outdir demtype suffix : String)
    (acc : DemState h w) (pr : String × List String) (hne : pr.2 ≠ []) :
    gfStep outdir demtype suffix acc pr =
      .ok (acc.1 ++ [(pr.1, pjoin outdir (demtype ++ suffix ++ ".tif"))],
           writeImg acc.2.1 (pjoin outdir (demtype ++ suffix ++ ".tif"))
             { nodata := nodataOf acc.2.1 pr.2, px := finalArr acc.2.1 pr.2 },
           acc.2.2 ++ [(pr.2, pjoin outdir (demtype ++ suffix ++ ".tif"),
             { nodata := nodataOf acc.2.1 pr.2, px := finalArr acc.2.1 pr.2 })]) := by
  rw [gfStep]
  rw [gap_fill_ne_nil acc.2.1 pr.2 (pjoin outdir (demtype ++ suffix ++ ".tif")) hne]
  simp [Except.bind, writeImg_self]

/-- Evaluation of the whole gap-fill loop: every product is recorded under
the single shared output path, the final filesystem is the initial one plus
the logged writes, and the log pairs each product's series with that path. -/
theorem gfFold_eval {h w : Nat} (outdir demtype suffix : String)
    (fnames : List (String × List String)) (acc : DemState h w)
    (hne : ∀ pr ∈ fnames, pr.2 ≠ []) :
    ∃ log,
      fnames.foldlM (gfStep outdir demtype suffix) acc =
        .ok (acc.1 ++ fnames.map
              (fun pr => (pr.1, pjoin outdir (demtype ++ suffix ++ ".tif"))),
             applyWrites acc.2.1 log, acc.2.2 ++ log)
      ∧ log.map (fun e => (e.1, e.2.1)) =
          fnames.map (fun pr => (pr.2, pjoin outdir (demtype ++ suffix ++ ".tif"))) := by
  induction fnames generalizing acc with
  | nil =>
    refine ⟨[], ?_, rfl⟩
    show (Except.ok acc : Except DemError (DemState h w)) = _
    simp [applyWrites]
  | cons pr rest ih =>
    have hpr : pr.2 ≠ [] := hne pr (List.mem_cons_self pr rest)
    obtain ⟨log2, hfold, hmap⟩ := ih
      (acc.1 ++ [(pr.1, pjoin outdir (demtype ++ suffix ++ ".tif"))],
       writeImg acc.2.1 (pjoin outdir (demtype ++ suffix ++ ".tif"))
         { nodata := nodataOf acc.2.1 pr.2, px := finalArr acc.2.1 pr.2 },
       acc.2.2 ++ [(pr.2, pjoin outdir (demtype ++ suffix ++ ".tif"),
         { nodata := nodataOf acc.2.1 pr.2, px := finalArr acc.2.1 pr.2 })])
      (fun x hx => hne x (List.mem_cons_of_mem pr hx))
    refine ⟨(pr.2, pjoin outdir (demtype ++ suffix ++ ".tif"),
      { nodata := nodataOf acc.2.1 pr.2, px := finalArr acc.2.1 pr.2 }) :: log2,
      ?_, ?_⟩
    · rw [List.foldlM_cons, gfStep_eval outdir demtype suffix acc pr hpr]
      show _ = _
      rw [show ∀ (x : DemState h w) (f : DemState h w → Except DemError (DemState h w)),
          Except.ok x >>= f = f x from fun x f => rfl]
      rw [hfold]
      simp only [List.map_cons, List.append_assoc, List.cons_append, List.nil_append]
      rfl
    · rw [List.map_cons, hmap]
      rfl

/-- Replaying writes that all target the same path leaves the last logged
image at that path. -/
theorem applyWrites_getLast {h w : Nat} (fs : String → GeoImage h w)
    (log : List (List String × String × GeoImage h w)) (p : String)
    (hp : ∀ e ∈ log, e.2.1 = p) (hne : log ≠ []) :
    ∃ e, log.getLast? = some e ∧ applyWrites fs log p = e.2.2 := by
  induction log generalizing fs with
  | nil => exact absurd rfl hne
  | cons a rest ih =>
    cases rest with
    | nil =>
      refine ⟨a, rfl, ?_⟩
      have ha := hp a (List.mem_cons_self a [])
      simp [applyWrites, writeImg, ha]
    | cons b rest2 =>
      obtain ⟨e, he1, he2⟩ := ih (writeImg fs a.2.1 a.2.2)
        (fun e heM => hp e (List.mem_cons_of_mem a heM)) (by simp)
      exact ⟨e, by rw [List.getLast?_cons_cons]; exact he1, he2⟩

/-- Merging one more raster after a prefix is one `mergeStep`. -/
theorem mergeList_append_single {h w : Nat} (nd : Int)
    (acc : Fin h → Fin w → Int) (l : List (Fin h → Fin w → Int))
    (x : Fin h → Fin w → Int) :
    mergeList nd acc (l ++ [x]) = mergeStep nd (mergeList nd acc l) x := by
  rw [mergeList, mergeList, List.foldl_append]
  rfl

/-! ## Claims -/

/-- C5: `gap_fill` invoked with an empty input sequence raises the
empty-input error (lines 110-111), leaves the filesystem untouched, and
performs no raster reads or writes. -/
theorem claim_C5 {h w : Nat} (fs : String → GeoImage h w) (fout : String) :
    gap_fill fs [] fout = { result := .error .emptyInput, fs := fs, reads := [] } :=
  rfl

/-- C8: when the underlying ground-classification run raises, `classify`
never returns normally, but the error it surfaces is a Python `NameError`
for the unbound name `fout` (the handler at lines 21-22 formats its message
with a variable that does not exist), not a classification error wrapping
the cause and naming the involved file. -/
theorem claim_C8 (e : String) (lasFile : String) :
    classify (.error e) lasFile = .error (.nameError "fout") := rfl

/-- C4: `gap_fill` sorts its input paths (line 114), so its entire outcome —
returned path, written raster and read set — is invariant under permutation
of the caller-supplied path list. -/
theorem claim_C4 {h w : Nat} (fs : String → GeoImage h w)
    (l1 l2 : List String) (fout : String) (hp : l1.Perm l2) :
    gap_fill fs l1 fout = gap_fill fs l2 fout := by
  have hsort := sortedNames_perm l1 l2 hp
  have hemp : l1.isEmpty = l2.isEmpty := by
    have hl := hp.length_eq
    rcases l1 with _ | ⟨a, t⟩ <;> rcases l2 with _ | ⟨b, u⟩ <;> simp_all
  have h2 : nodataOf fs l1 = nodataOf fs l2 := by
    rw [nodataOf, nodataOf, hsort]
  have h3 : mergedArr fs l1 = mergedArr fs l2 := by
    rw [mergedArr, mergedArr, hsort]
  have h4 : finalArr fs l1 = finalArr fs l2 := by
    rw [finalArr, finalArr, filledArr, filledArr, h2, h3]
  rw [gap_fill, gap_fill, hemp, hsort, h2, h4]

theorem claim_C4_witness :
    gap_fill exFs9 ["b.tif", "a.tif"] "o.tif"
      = gap_fill exFs9 ["a.tif", "b.tif"] "o.tif" :=
  claim_C4 exFs9 ["b.tif", "a.tif"] ["a.tif", "b.tif"] "o.tif"
    (List.Perm.swap "a.tif" "b.tif" [])

/-- C2: in `gap_fill`'s merge, each subsequent raster (the k-th of the
sorted tail, acting on the merge of the previous k) overwrites exactly the
accumulator cells still equal to the nodata sentinel and no others; in the
concrete pair — `exR1` (sorted first, nodata only at (2,2)) and `exR2`
(valid at (2,2)) — the pre-median-filter merged array holds `exR2`'s value
at (2,2) and `exR1`'s values everywhere else. -/
theorem claim_C2 :
    (∀ (h w : Nat) (nd : Int) (acc : Fin h → Fin w → Int)
        (imgs : List (Fin h → Fin w → Int)) (k : Nat) (hk : k < imgs.length)
        (i : Fin h) (j : Fin w),
        mergeList nd acc (imgs.take (k + 1)) i j
          = if mergeList nd acc (imgs.take k) i j = nd
              then imgs.get ⟨k, hk⟩ i j
              else mergeList nd acc (imgs.take k) i j)
    ∧ mergedArr exFs2 ["r1.tif", "r2.tif"] 2 2 = exR2.px 2 2
    ∧ (∀ (i j : Fin 5), ¬(i = 2 ∧ j = 2) →
        mergedArr exFs2 ["r1.tif", "r2.tif"] i j = exR1.px i j) := by
  refine ⟨?_, by decide, by decide⟩
  intro h w nd acc imgs k hk i j
  have htake : imgs.take (k + 1) = imgs.take k ++ [imgs.get ⟨k, hk⟩] := by
    rw [List.take_succ, List.getElem?_eq_getElem hk]
    rfl
  rw [htake, mergeList_append_single]
  rfl

theorem claim_C2_witness :
    (mergeList (-1) exR1.px ([exR2.px].take (0 + 1)) 0 0
        = if mergeList (-1) exR1.px ([exR2.px].take 0) 0 0 = -1
            then ([exR2.px].get ⟨0, Nat.zero_lt_one⟩) 0 0
            else mergeList (-1) exR1.px ([exR2.px].take 0) 0 0)
      ∧ mergedArr exFs2 ["r1.tif", "r2.tif"] 0 1 = exR1.px 0 1 :=
  ⟨claim_C2.1 5 5 (-1) exR1.px [exR2.px] 0 Nat.zero_lt_one 0 0,
   claim_C2.2.2 0 1 (by decide)⟩

/-- C3: after the nearest-neighbour (distance-transform) fill of
`gap_fill`, no cell of the filled array equals the nodata sentinel,
provided the merged array had at least one valid cell; and when the merged
array has exactly one valid cell, the entire pre-median-filter filled array
equals that cell's value. -/
theorem claim_C3 :
    (∀ (h w : Nat) (fs : String → GeoImage h w) (fns : List String)
        (p0 : Fin h × Fin w),
        mergedArr fs fns p0.1 p0.2 ≠ nodataOf fs fns →
        ∀ (i : Fin h) (j : Fin w), filledArr fs fns i j ≠ nodataOf fs fns)
    ∧ (∀ (h w : Nat) (fs : String → GeoImage h w) (fns : List String)
        (q0 : Fin h × Fin w) (v : Int),
        v ≠ nodataOf fs fns →
        mergedArr fs fns q0.1 q0.2 = v →
        (∀ p : Fin h × Fin w, p ≠ q0 →
          mergedArr fs fns p.1 p.2 = nodataOf fs fns) →
        ∀ (i : Fin h) (j : Fin w), filledArr fs fns i j = v) := by
  constructor
  · intro h w fs fns p0 h0 i j
    rw [filledArr]
    exact edtFill_ne_nodata _ _ p0 h0 i j
  · intro h w fs fns q0 v hv hq0 hother i j
    rw [filledArr]
    exact edtFill_unique _ _ q0 v hv hq0 hother i j

theorem claim_C3_witness :
    filledArr exFs3 ["solo.tif"] 0 0 = 7
      ∧ filledArr exFs3 ["solo.tif"] 2 2 ≠ nodataOf exFs3 ["solo.tif"] :=
  ⟨claim_C3.2 3 3 exFs3 ["solo.tif"] (1, 1) 7 (by decide) (by decide)
      (by decide) 0 0,
   claim_C3.1 3 3 exFs3 ["solo.tif"] (1, 1) (by decide) 2 2⟩

/-- C9 (counterexample): with caller order [b.tif, a.tif] — so the first
(finest-radius) entry of the ProductSeries is b.tif with sentinel 5 —
`gap_fill` records sentinel 3, the one of the lexicographically smallest
path a.tif, on the merged output: the sentinel is not inherited from the
caller-order first raster. -/
theorem claim_C9_counterexample :
    ¬ (((gap_fill exFs9 ["b.tif", "a.tif"] "out.tif").fs "out.tif").nodata
        = (exFs9 "b.tif").nodata) := by decide

/-- C9 (amended): the nodata sentinel recorded on the merged output raster
is the sentinel of the lexicographically first input raster of the
ProductSeries (the head of the sorted path list), not of the caller-order
first entry. -/
theorem claim_C9_amended {h w : Nat} (fs : String → GeoImage h w)
    (fns : List String) (fout s0 : String) (srest : List String)
    (hs : sortedNames fns = s0 :: srest) :
    ((gap_fill fs fns fout).fs fout).nodata = (fs s0).nodata := by
  have hne : fns ≠ [] := by
    intro h0
    rw [h0] at hs
    exact absurd hs (by simp [sortedNames])
  rw [gap_fill_ne_nil fs fns fout hne]
  simp only [writeImg_self]
  rw [nodataOf, hs]
  rfl

theorem claim_C9_witness :
    ((gap_fill exFs9 ["b.tif", "a.tif"] "o.tif").fs "o.tif").nodata
      = (exFs9 "a.tif").nodata :=
  claim_C9_amended exFs9 ["b.tif", "a.tif"] "o.tif" "a.tif" ["b.tif"]
    (by decide)

/-- C1: for every non-empty radii sequence and non-empty source-file list,
the product map assembled by `create_dems` (its `seriesMap` regrouping of
the per-radius `create_dem` runs) pairs every product with the series whose
Nth entry is the output path of the run for the Nth caller-supplied radius,
for every completion order of the concurrent per-radius jobs. -/
theorem claim_C1 (ex : String → Bool) (ap : String → String)
    (filenames : List String) (demtype : String) (products : List String)
    (outdir suffix : String) (radius : List String) (sched : List Nat)
    (r0 : String) (rs : List String)
    (hfne : filenames ≠ [])
    (hr : radius = r0 :: rs)
    (hs : sched.Perm (List.range radius.length))
    (hex : ∀ r ∈ radius, ∀ o ∈ products,
      ex (demPath ap outdir demtype r suffix o) = true) :
    seriesMap (fun r => create_dem ex ap filenames demtype r products outdir suffix)
      radius sched
      = .ok (products.map fun p =>
          (p, radius.map fun r => demPath ap outdir demtype r suffix p)) := by
  apply seriesMap_eval _ (fun r o => demPath ap outdir demtype r suffix o)
    products radius sched r0 rs hr hs
  intro r hrm
  exact create_dem_ok ex ap filenames demtype r products outdir suffix (hex r hrm)

theorem claim_C1_witness :
    seriesMap
      (fun r => create_dem (fun _ => true) (fun s => s) ["a.las"] "dsm" r
        ["idw", "max"] "out" "")
      ["10", "2"] [1, 0]
      = .ok [("idw", ["out/dsm_r10.idw.tif", "out/dsm_r2.idw.tif"]),
             ("max", ["out/dsm_r10.max.tif", "out/dsm_r2.max.tif"])] := by
  rw [claim_C1 (fun _ => true) (fun s => s) ["a.las"] "dsm" ["idw", "max"]
    "out" "" ["10", "2"] [1, 0] "10" ["2"] (by decide) rfl
    (List.Perm.swap 0 1 []) (by intro r hrm o ho; rfl)]
  rfl

theorem except_bind_ok {E α β : Type} (a : α) (f : α → Except E β) :
    Except.bind (Except.ok a) f = f a := rfl

/-- C6: with gapFill false, `create_dems` returns, for every product, the
path produced by the run for the first caller-supplied radius, leaves the
filesystem untouched and performs no gap-fill invocation. -/
theorem claim_C6 {h w : Nat} (ex : String → Bool) (ap : String → String)
    (fs0 : String → GeoImage h w) (filenames : List String)
    (demtype outdir suffix : String) (radius : List String) (sched : List Nat)
    (r0 : String) (rs : List String) (products : List String)
    (hr : radius = r0 :: rs)
    (hs : sched.Perm (List.range radius.length))
    (hex : ∀ r ∈ radius, ∀ o ∈ products,
      ex (demPath ap outdir demtype r suffix o) = true) :
    create_dems ex ap fs0 filenames demtype radius false outdir suffix products sched
      = .ok (products.map fun p => (p, demPath ap outdir demtype r0 suffix p),
             fs0, []) := by
  subst hr
  rw [create_dems,
    seriesMap_eval _ (fun r o => demPath ap outdir demtype r suffix o) products
      (r0 :: rs) sched r0 rs rfl hs
      (fun r hrm =>
        create_dem_ok ex ap filenames demtype r products outdir suffix (hex r hrm)),
    except_bind_ok, if_neg Bool.false_ne_true]
  rw [mapM_map_ok products
      (fun p => (p, (r0 :: rs).map fun r => demPath ap outdir demtype r suffix p))
      _ (fun p => (p, demPath ap outdir demtype r0 suffix p))
      (fun p _ => rfl),
    except_bind_ok]

theorem claim_C6_witness :
    create_dems (fun _ => true) (fun s => s) (fun _ => exNdA) ["a.las"] "dtm"
      ["2", "10"] false "out" "" ["idw"] [1, 0]
      = .ok ([("idw", "out/dtm_r2.idw.tif")], fun _ => exNdA, []) := by
  rw [claim_C6 (fun _ => true) (fun s => s) (fun _ => exNdA) ["a.las"] "dtm"
    "out" "" ["2", "10"] [1, 0] "2" ["10"] ["idw"] rfl
    (List.Perm.swap 0 1 []) (by intro r hrm o ho; rfl)]
  rfl

/-- C7: after the pipeline, `create_dem` positively checks every expected
product file: it raises the rasterization error when any product file is
absent, and returns the full product-to-path mapping when all exist. -/
theorem claim_C7 (ex : String → Bool) (ap : String → String)
    (filenames : List String) (demtype radius : String)
    (products : List String) (outdir suffix : String) :
    ((∃ o ∈ products, ex (demPath ap outdir demtype radius suffix o) = false) →
      create_dem ex ap filenames demtype radius products outdir suffix
        = .error .rasterization)
    ∧ ((∀ o ∈ products, ex (demPath ap outdir demtype radius suffix o) = true) →
      create_dem ex ap filenames demtype radius products outdir suffix
        = .ok (products.map fun o => (o, demPath ap outdir demtype radius suffix o))) := by
  constructor
  · rintro ⟨o, ho, hfalse⟩
    rw [create_dem]
    have hall : (products.map fun o =>
        (o, demPath ap outdir demtype radius suffix o)).all (fun f => ex f.2) = false := by
      rw [List.all_eq_false]
      refine ⟨(o, demPath ap outdir demtype radius suffix o),
        List.mem_map_of_mem _ ho, ?_⟩
      simp [hfalse]
    simp only [existsFold_eq_all, hall, Bool.true_and, Bool.false_eq_true, if_false]
  · intro hex
    exact create_dem_ok ex ap filenames demtype radius products outdir suffix hex

theorem claim_C7_witness :
    create_dem (fun _ => true) (fun s => s) ["a.las"] "dtm" "2" ["idw"] "out" ""
        = .ok [("idw", "out/dtm_r2.idw.tif")]
      ∧ create_dem (fun _ => false) (fun s => s) ["a.las"] "dtm" "2" ["idw"] "out" ""
        = .error .rasterization := by
  constructor
  · rw [(claim_C7 (fun _ => true) (fun s => s) ["a.las"] "dtm" "2" ["idw"]
      "out" "").2 (by intro o ho; rfl)]
    rfl
  · exact (claim_C7 (fun _ => false) (fun s => s) ["a.las"] "dtm" "2" ["idw"]
      "out" "").1 ⟨"idw", by simp, rfl⟩

/-- C10: with gapFill true and more than one requested product, every
product of the returned mapping is assigned the one shared output path
`join(outdir, demtype + suffix + '.tif')`, `gap_fill` is invoked once per
product — each invocation writing that single shared file — and the final
raster at that path is the one written by the last invocation, each later
product's merged raster having overwritten the previous product's. -/
theorem claim_C10 {h w : Nat} (ex : String → Bool) (ap : String → String)
    (fs0 : String → GeoImage h w) (filenames : List String)
    (demtype outdir suffix : String) (radius : List String) (sched : List Nat)
    (r0 : String) (rs : List String) (products : List String)
    (p1 p2 : String) (ps : List String)
    (hr : radius = r0 :: rs)
    (hprod : products = p1 :: p2 :: ps)
    (hs : sched.Perm (List.range radius.length))
    (hex : ∀ r ∈ radius, ∀ o ∈ products,
      ex (demPath ap outdir demtype r suffix o) = true) :
    ∃ log,
      create_dems ex ap fs0 filenames demtype radius true outdir suffix products sched
        = .ok (products.map fun p => (p, pjoin outdir (demtype ++ suffix ++ ".tif")),
               applyWrites fs0 log, log)
      ∧ log.map (fun e => (e.1, e.2.1))
          = products.map (fun p =>
              (radius.map fun r => demPath ap outdir demtype r suffix p,
               pjoin outdir (demtype ++ suffix ++ ".tif")))
      ∧ ∃ last, log.getLast? = some last
          ∧ applyWrites fs0 log (pjoin outdir (demtype ++ suffix ++ ".tif"))
              = last.2.2 := by
  rw [create_dems,
    seriesMap_eval _ (fun r o => demPath ap outdir demtype r suffix o) products
      radius sched r0 rs hr hs
      (fun r hrm =>
        create_dem_ok ex ap filenames demtype r products outdir suffix (hex r hrm)),
    except_bind_ok, if_pos rfl]
  obtain ⟨log, hfold, hmap⟩ := gfFold_eval outdir demtype suffix
    (products.map fun p => (p, radius.map fun r => demPath ap outdir demtype r suffix p))
    ([], fs0, [])
    (by
      intro pr hpr
      rcases List.mem_map.mp hpr with ⟨p, hp, rfl⟩
      subst hr
      simp)
  rw [List.map_map] at hmap
  refine ⟨log, ?_, ?_, ?_⟩
  · rw [hfold]
    rw [List.map_map]
    rfl
  · rw [hmap]
    rfl
  · have hall : ∀ e ∈ log, e.2.1 = pjoin outdir (demtype ++ suffix ++ ".tif") := by
      intro e he
      have hin : (e.1, e.2.1) ∈ log.map (fun e => (e.1, e.2.1)) :=
        List.mem_map_of_mem _ he
      rw [hmap] at hin
      rcases List.mem_map.mp hin with ⟨p, hp, heq⟩
      have := congrArg Prod.snd heq
      exact this.symm
    have hlogne : log ≠ [] := by
      intro h0
      rw [h0] at hmap
      subst hprod
      simp at hmap
    obtain ⟨last, h1, h2⟩ := applyWrites_getLast fs0 log _ hall hlogne
    exact ⟨last, h1, h2⟩

theorem claim_C10_witness :
    ∃ log,
      create_dems (fun _ => true) (fun s => s) (fun _ => exNdA) ["a.las"] "dtm"
        ["2"] true "out" "" ["idw", "max"] [0]
        = .ok ((["idw", "max"].map fun p => (p, pjoin "out" ("dtm" ++ "" ++ ".tif"))),
               applyWrites (fun _ => exNdA) log, log)
      ∧ log.map (fun e => (e.1, e.2.1))
          = ["idw", "max"].map (fun p =>
              (["2"].map fun r => demPath (fun s => s) "out" "dtm" r "" p,
               pjoin "out" ("dtm" ++ "" ++ ".tif")))
      ∧ ∃ last, log.getLast? = some last
          ∧ applyWrites (fun _ => exNdA) log (pjoin "out" ("dtm" ++ "" ++ ".tif"))
              = last.2.2 :=
  claim_C10 (fun _ => true) (fun s => s) (fun _ => exNdA) ["a.las"] "dtm"
    "out" "" ["2"] [0] "2" [] ["idw", "max"] "idw" "max" [] rfl rfl
    (List.Perm.refl [0]) (by intro r hrm o ho; rfl)
